import Mathlib

/-!
Shallow embedding of the `SmoothContinuousDataHandler` stream-processing core
of `src/week_8/test3.py`, together with proofs of the specification claims.

Conventions of the embedding:
* Python floats are modelled as rationals (`ℚ`); the concrete values in the
  specification's examples are exact in both representations.
* `datetime` instants and `time.time()` readings are modelled as rationals and
  passed explicitly (`timestamp`, `now`) where the Python code reads a clock.
* `collections.deque(maxlen = cap)` is modelled as a `List` whose append drops
  elements from the front once the capacity is exceeded (`dequeAppend`).
* The Python `dict` of streams is modelled as an association list in insertion
  order, mirroring dict iteration order; keys are unique in every reachable
  state because registration checks membership first.
-/

namespace SmoothStream

/-- Embeds the `data_point` dict built in `add_data_point`
(`test3.py` lines 96-102): timestamp, raw value, smoothed value, anomaly flag
and the two-valued quality score. -/
structure Sample where
  timestamp : ℚ
  raw_value : ℚ
  smoothed_value : ℚ
  is_anomaly : Bool
  quality_score : ℚ
deriving DecidableEq, Repr

/-- State of a `SmoothContinuousDataHandler` instance (`test3.py` lines 37-64):
the four configuration fields, the stream dictionaries, and the
`performance_metrics` record flattened into its four entries. -/
structure Handler where
  buffer_size : ℕ
  display_window : ℕ
  smoothing_factor : ℚ
  anomaly_threshold : ℚ
  data_streams : List (String × List Sample)
  smoothed_streams : List (String × List Sample)
  total_points : ℕ
  anomalies_detected : ℕ
  data_rates : List ℚ
  last_update_time : ℚ
deriving DecidableEq, Repr

/-- Embeds `__init__` (`test3.py` lines 37-64): empty stream dictionaries and
zeroed metrics; `now` stands for the `time.time()` read stored in
`last_update_time`. -/
def mkHandler (buffer_size display_window : ℕ)
    (smoothing_factor anomaly_threshold now : ℚ) : Handler :=
  ⟨buffer_size, display_window, smoothing_factor, anomaly_threshold,
   [], [], 0, 0, [], now⟩

/-- Embeds appending to a `collections.deque(maxlen = cap)`: the new element
goes to the back and the front is discarded once the length exceeds `cap`. -/
def dequeAppend {α : Type} (cap : ℕ) (xs : List α) (x : α) : List α :=
  let ys := xs ++ [x]
  if cap < ys.length then ys.drop (ys.length - cap) else ys

/-- Contents of a named stream's buffer: `self.data_streams[stream_name]`,
defaulting to the empty buffer for an unregistered name. -/
def streamSamples (h : Handler) (name : String) : List Sample :=
  (h.data_streams.lookup name).getD []

/-- Embeds `register_stream` (`test3.py` lines 66-72): if the name is absent,
add empty deques to `data_streams` and `smoothed_streams`; otherwise no-op. -/
def registerStream (h : Handler) (name : String) : Handler :=
  if (h.data_streams.lookup name).isSome then h
  else { h with data_streams := h.data_streams ++ [(name, [])],
                smoothed_streams := h.smoothed_streams ++ [(name, [])] }

/-- Embeds `_apply_smoothing` (`test3.py` lines 131-144): the raw value when
the stream is empty, otherwise the exponential moving average against the
`smoothed_value` of the last stored sample. -/
def applySmoothing (alpha : ℚ) (samples : List Sample) (value : ℚ) : ℚ :=
  match samples.getLast? with
  | none => value
  | some last_point => alpha * value + (1 - alpha) * last_point.smoothed_value

/-- Embeds `recent_values` of `_detect_anomaly` (`test3.py` lines 116-117):
the Python slice `list(stream)[-20:]` of raw values; for a list of length
at least 20 this is the most recent 20 entries. -/
def recentValues (samples : List Sample) : List ℚ :=
  (samples.drop (samples.length - 20)).map Sample.raw_value

/-- Embeds `mean_val` of `_detect_anomaly` (`test3.py` line 120). -/
def meanVal (xs : List ℚ) : ℚ := xs.sum / xs.length

/-- Embeds `variance` of `_detect_anomaly` (`test3.py` line 121): population
variance of the window. -/
def varianceVal (xs : List ℚ) : ℚ :=
  (xs.map (fun x => (x - meanVal xs) ^ 2)).sum / xs.length

/-- Embeds `_detect_anomaly` (`test3.py` lines 110-129). The Python code
returns `False` for fewer than 20 stored samples, computes mean and population
variance of the last 20 raw values, sets `std_dev = sqrt(variance)` when the
variance is positive and `0` otherwise, returns `False` for `std_dev == 0`,
and otherwise tests `abs((value - mean) / std_dev) > threshold`.  Over `ℚ`
the square root is not available, so the final test is carried out in the
equivalent squared form `threshold < 0 ∨ threshold² · variance < (value -
mean)²`; the theorem `detectAnomaly_eq_zscore` below proves this Boolean equal
to the literal real-valued z-score comparison of the source. -/
def detectAnomaly (threshold : ℚ) (samples : List Sample) (value : ℚ) : Bool :=
  if samples.length < 20 then false
  else
    let recent := recentValues samples
    let mean_val := meanVal recent
    let variance := varianceVal recent
    if 0 < variance then
      decide (threshold < 0) || decide (threshold ^ 2 * variance < (value - mean_val) ^ 2)
    else false

/-- The `data_point` dict as built in `add_data_point` (`test3.py` lines
86-102) from the stream's state before the append, for a handler in which
`name` is already registered. -/
def builtSample (h : Handler) (name : String) (value timestamp : ℚ) : Sample :=
  let flagged := detectAnomaly h.anomaly_threshold (streamSamples h name) value
  { timestamp := timestamp
    raw_value := value
    smoothed_value := applySmoothing h.smoothing_factor (streamSamples h name) value
    is_anomaly := flagged
    quality_score := if flagged then 1/2 else 1 }

/-- Replace the buffer stored under `name` by `f` applied to it, leaving the
dictionary's other entries and insertion order unchanged (the in-place
`self.data_streams[stream_name].append(...)` of the Python code). -/
def updateStream (streams : List (String × List Sample)) (name : String)
    (f : List Sample → List Sample) : List (String × List Sample) :=
  streams.map (fun p => if p.1 = name then (p.1, f p.2) else p)

/-- Embeds `_update_performance_metrics` (`test3.py` lines 146-156): push the
instantaneous rate `1 / (now - last_update_time)` onto the 50-capacity rate
deque when the elapsed time is positive, then store `now`. -/
def updatePerformanceMetrics (h : Handler) (now : ℚ) : Handler :=
  let time_diff := now - h.last_update_time
  if 0 < time_diff then
    { h with data_rates := dequeAppend 50 h.data_rates (1 / time_diff),
             last_update_time := now }
  else { h with last_update_time := now }

/-- Embeds `add_data_point` (`test3.py` lines 74-108): auto-register, detect
the anomaly against the pre-append buffer, bump the anomaly counter if
flagged, smooth, append the built sample with eviction, bump `total_points`,
and update the rate metrics.  `timestamp` is the caller-supplied instant and
`now` the `time.time()` read inside `_update_performance_metrics`. -/
def addDataPoint (h₀ : Handler) (name : String) (value timestamp now : ℚ) : Handler :=
  let h := registerStream h₀ name
  let point := builtSample h name value timestamp
  updatePerformanceMetrics
    { h with
      anomalies_detected :=
        if point.is_anomaly then h.anomalies_detected + 1 else h.anomalies_detected,
      data_streams :=
        updateStream h.data_streams name (fun s => dequeAppend h.buffer_size s point),
      total_points := h.total_points + 1 } now

/-- Embeds the slice `values[start_idx:end_idx]` used by the edge branch of
`_cubic_interpolation` (`test3.py` lines 210-226) together with the weighted
sums accumulated over `zip` with the weight list `[0.25, 0.5, 0.25]`. -/
def edgeValue (values : List ℚ) (i : ℕ) : ℚ :=
  let start_idx := i - 1
  let end_idx := min values.length (i + 2)
  let slice := (values.drop start_idx).take (end_idx - start_idx)
  let pairs := slice.zip [(1:ℚ)/4, 1/2, 1/4]
  let weighted_sum := (pairs.map (fun p => p.1 * p.2)).sum
  let weight_sum := (pairs.map (fun p => p.2)).sum
  if 0 < weight_sum then weighted_sum / weight_sum else values.getD i 0

/-- The value `_cubic_interpolation` computes at index `i` (`test3.py` lines
197-226): endpoints pass through, interior indices use the 4-point formula,
the remaining indices (`i = 1` and `i = len - 2`) use the weighted average of
`edgeValue`. -/
def cubicAt (values : List ℚ) (i : ℕ) : ℚ :=
  if i = 0 ∨ i = values.length - 1 then values.getD i 0
  else if 2 ≤ i ∧ i < values.length - 2 then
    let p0 := values.getD (i - 2) 0
    let p1 := values.getD (i - 1) 0
    let p2 := values.getD i 0
    let p3 := values.getD (i + 1) 0
    (1/2) * (2 * p1 + (-p0 + p2) + (2 * p0 - 5 * p1 + 4 * p2 - p3))
  else edgeValue values i

/-- Embeds `_cubic_interpolation` (`test3.py` lines 187-228): inputs of fewer
than 4 values are returned unchanged, otherwise the index loop builds the
output list position by position. -/
def cubicInterpolation (values : List ℚ) : List ℚ :=
  if values.length < 4 then values
  else (List.range values.length).map (cubicAt values)

/-- Embeds the Python slice `xs[-w:]` for a nonnegative `w` as used by
`get_display_data` (`test3.py` line 170): for `w = 0` the slice degenerates to
`xs[0:]`, the whole list; otherwise it keeps the last `w` elements. -/
def pySliceLast {α : Type} (w : ℕ) (xs : List α) : List α :=
  if w = 0 then xs else xs.drop (xs.length - w)

/-- Embeds `get_display_data` (`test3.py` lines 158-185): empty triple for an
unknown stream or an empty slice; otherwise the timestamp, raw and smoothed
columns of the last `display_window` samples, the smoothed column passed
through `_cubic_interpolation` when it holds at least 4 values. -/
def getDisplayData (h : Handler) (name : String) : List ℚ × List ℚ × List ℚ :=
  match h.data_streams.lookup name with
  | none => ([], [], [])
  | some samples =>
    let recent := pySliceLast h.display_window samples
    if recent.isEmpty then ([], [], [])
    else
      let timestamps := recent.map Sample.timestamp
      let raw_values := recent.map Sample.raw_value
      let smoothed_values := recent.map Sample.smoothed_value
      if 4 ≤ smoothed_values.length then
        (timestamps, raw_values, cubicInterpolation smoothed_values)
      else (timestamps, raw_values, smoothed_values)

/-- The dict returned by `get_performance_stats` (`test3.py` lines 230-242). -/
structure PerfStats where
  total_points : ℕ
  anomalies : ℕ
  avg_data_rate : ℚ
  buffer_usage : ℕ
deriving DecidableEq, Repr

/-- Embeds `get_performance_stats` (`test3.py` lines 230-242): the two
counters, the mean of the rate window (`0` when the window is empty), and the
sum of the current stream lengths. -/
def getPerformanceStats (h : Handler) : PerfStats :=
  { total_points := h.total_points
    anomalies := h.anomalies_detected
    avg_data_rate :=
      if h.data_rates.isEmpty then 0 else h.data_rates.sum / h.data_rates.length
    buffer_usage := (h.data_streams.map (fun p => p.2.length)).sum }

/-- Embeds the reset branch of `update_advanced_graph` (`test3.py` lines
431-439): clear every registered stream's deque in both dictionaries and zero
the two counters; nothing else is touched. -/
def reset (h : Handler) : Handler :=
  { h with
    data_streams := h.data_streams.map (fun p => (p.1, ([] : List Sample))),
    smoothed_streams := h.smoothed_streams.map (fun p => (p.1, ([] : List Sample))),
    anomalies_detected := 0,
    total_points := 0 }

/-- Feed a sequence of `(value, timestamp, now)` triples into one stream
through `add_data_point`. -/
def addAll (h : Handler) (name : String) (points : List (ℚ × ℚ × ℚ)) : Handler :=
  points.foldl (fun acc p => addDataPoint acc name p.1 p.2.1 p.2.2) h

/-- Feed a sequence of `(stream, value, timestamp, now)` insertions through
`add_data_point`. -/
def runAdds (h : Handler) (ops : List (String × ℚ × ℚ × ℚ)) : Handler :=
  ops.foldl (fun acc o => addDataPoint acc o.1 o.2.1 o.2.2.1 o.2.2.2) h

/-- Number of insertions a given stream receives in an insertion sequence. -/
def countName (name : String) (ops : List (String × ℚ × ℚ × ℚ)) : ℕ :=
  (ops.filter (fun o => decide (o.1 = name))).length

/-- One call of the mutating API surface used by claim C9: `register_stream`
or `add_data_point`. -/
inductive Op where
  | reg : String → Op
  | add : String → ℚ → ℚ → ℚ → Op
deriving DecidableEq, Repr

/-- Apply one API call to the handler state. -/
def applyOp (h : Handler) : Op → Handler
  | Op.reg name => registerStream h name
  | Op.add name v t now => addDataPoint h name v t now

/-- Run a sequence of `register_stream` / `add_data_point` calls. -/
def runOps (h : Handler) (ops : List Op) : Handler := ops.foldl applyOp h

end SmoothStream

namespace SmoothStream

/-! ### Structural lemmas about the deque model -/

theorem dequeAppend_eq_drop {α : Type} (cap : ℕ) (xs : List α) (x : α) :
    dequeAppend cap xs x = (xs ++ [x]).drop (xs.length + 1 - cap) := by
  simp only [dequeAppend]
  split
  · simp
  · next h =>
    have h0 : xs.length + 1 - cap = 0 := by
      simp only [List.length_append, List.length_singleton] at h
      omega
    rw [h0, List.drop_zero]

theorem length_dequeAppend {α : Type} (cap : ℕ) (xs : List α) (x : α) :
    (dequeAppend cap xs x).length = min (xs.length + 1) cap := by
  rw [dequeAppend_eq_drop]
  simp only [List.length_drop, List.length_append, List.length_singleton]
  omega

theorem map_dequeAppend {α β : Type} (f : α → β) (cap : ℕ) (xs : List α) (x : α) :
    (dequeAppend cap xs x).map f = dequeAppend cap (xs.map f) (f x) := by
  simp only [dequeAppend_eq_drop, List.map_drop, List.map_append, List.map_cons,
    List.map_nil, List.length_map]

theorem foldl_dequeAppend {α : Type} (cap : ℕ) (vs : List α) :
    ∀ xs : List α, xs.length ≤ cap →
      vs.foldl (dequeAppend cap) xs = (xs ++ vs).drop (xs.length + vs.length - cap) := by
  induction vs with
  | nil =>
    intro xs hxs
    have h0 : xs.length - cap = 0 := by omega
    simp [h0]
  | cons v vs ih =>
    intro xs hxs
    have hlen : (dequeAppend cap xs v).length ≤ cap := by
      rw [length_dequeAppend]; omega
    rw [List.foldl_cons, ih _ hlen, length_dequeAppend, dequeAppend_eq_drop]
    rw [← List.drop_append_of_le_length
      (by simp only [List.length_append, List.length_singleton]; omega), List.drop_drop]
    have harr : (xs ++ [v]) ++ vs = xs ++ v :: vs := by simp
    rw [harr]
    congr 1
    simp only [List.length_cons]
    omega

/-! ### Lemmas about lookup and updates of the stream dictionary -/

theorem updateStream_cons (k : String) (s : List Sample)
    (l : List (String × List Sample)) (name : String)
    (f : List Sample → List Sample) :
    updateStream ((k, s) :: l) name f =
      (if k = name then (k, f s) else (k, s)) :: updateStream l name f := rfl

theorem lookup_updateStream_self (l : List (String × List Sample)) (name : String)
    (f : List Sample → List Sample) :
    (updateStream l name f).lookup name = (l.lookup name).map f := by
  induction l with
  | nil => rfl
  | cons p l ih =>
    obtain ⟨k, s⟩ := p
    by_cases h : k = name
    · subst h
      simp [updateStream, List.lookup_cons]
    · have hne : (name == k) = false := beq_false_of_ne (Ne.symm h)
      simp only [updateStream, List.map_cons, if_neg h, List.lookup_cons, hne]
      exact ih

theorem lookup_updateStream_ne (l : List (String × List Sample)) (name n : String)
    (f : List Sample → List Sample) (h : n ≠ name) :
    (updateStream l name f).lookup n = l.lookup n := by
  induction l with
  | nil => rfl
  | cons p l ih =>
    obtain ⟨k, s⟩ := p
    rw [updateStream_cons]
    by_cases hk : k = name
    · subst hk
      have hne : (n == k) = false := beq_false_of_ne h
      rw [if_pos rfl]
      simp only [List.lookup_cons, hne]
      exact ih
    · rw [if_neg hk]
      cases hbe : (n == k) with
      | true => simp [List.lookup_cons, hbe]
      | false =>
        simp only [List.lookup_cons, hbe]
        exact ih

theorem map_fst_updateStream (l : List (String × List Sample)) (name : String)
    (f : List Sample → List Sample) :
    (updateStream l name f).map Prod.fst = l.map Prod.fst := by
  induction l with
  | nil => rfl
  | cons p l ih =>
    by_cases h : p.1 = name <;> simp [updateStream, h] <;>
      simpa [updateStream] using ih

theorem updateStream_of_not_mem (l : List (String × List Sample)) (name : String)
    (f : List Sample → List Sample) (h : name ∉ l.map Prod.fst) :
    updateStream l name f = l := by
  induction l with
  | nil => rfl
  | cons p l ih =>
    obtain ⟨k, s⟩ := p
    simp only [List.map_cons, List.mem_cons, not_or] at h
    rw [updateStream_cons, if_neg (fun e => h.1 e.symm), ih h.2]

theorem lookup_map_value (l : List (String × List Sample))
    (g : List Sample → List Sample) (n : String) :
    (l.map (fun p => (p.1, g p.2))).lookup n = (l.lookup n).map g := by
  induction l with
  | nil => rfl
  | cons p l ih =>
    obtain ⟨k, s⟩ := p
    cases hbe : (n == k) with
    | true => simp [List.lookup_cons, hbe]
    | false =>
      simp only [List.map_cons, List.lookup_cons, hbe]
      exact ih

theorem not_mem_keys_of_lookup_none (l : List (String × List Sample)) (name : String)
    (hl : l.lookup name = none) : name ∉ l.map Prod.fst := by
  rw [List.lookup_eq_none_iff] at hl
  intro hmem
  obtain ⟨p, hp, he⟩ := List.mem_map.mp hmem
  have := hl p hp
  rw [he] at this
  simp at this

/-! ### Projection lemmas for the state-updating operations -/

@[simp] theorem updatePM_data_streams (h : Handler) (now : ℚ) :
    (updatePerformanceMetrics h now).data_streams = h.data_streams := by
  simp only [updatePerformanceMetrics]; split <;> rfl

@[simp] theorem updatePM_smoothed_streams (h : Handler) (now : ℚ) :
    (updatePerformanceMetrics h now).smoothed_streams = h.smoothed_streams := by
  simp only [updatePerformanceMetrics]; split <;> rfl

@[simp] theorem updatePM_total_points (h : Handler) (now : ℚ) :
    (updatePerformanceMetrics h now).total_points = h.total_points := by
  simp only [updatePerformanceMetrics]; split <;> rfl

@[simp] theorem updatePM_anomalies (h : Handler) (now : ℚ) :
    (updatePerformanceMetrics h now).anomalies_detected = h.anomalies_detected := by
  simp only [updatePerformanceMetrics]; split <;> rfl

@[simp] theorem updatePM_buffer_size (h : Handler) (now : ℚ) :
    (updatePerformanceMetrics h now).buffer_size = h.buffer_size := by
  simp only [updatePerformanceMetrics]; split <;> rfl

@[simp] theorem updatePM_display_window (h : Handler) (now : ℚ) :
    (updatePerformanceMetrics h now).display_window = h.display_window := by
  simp only [updatePerformanceMetrics]; split <;> rfl

@[simp] theorem updatePM_smoothing_factor (h : Handler) (now : ℚ) :
    (updatePerformanceMetrics h now).smoothing_factor = h.smoothing_factor := by
  simp only [updatePerformanceMetrics]; split <;> rfl

@[simp] theorem updatePM_anomaly_threshold (h : Handler) (now : ℚ) :
    (updatePerformanceMetrics h now).anomaly_threshold = h.anomaly_threshold := by
  simp only [updatePerformanceMetrics]; split <;> rfl

@[simp] theorem registerStream_buffer_size (h : Handler) (name : String) :
    (registerStream h name).buffer_size = h.buffer_size := by
  unfold registerStream; split <;> rfl

@[simp] theorem registerStream_display_window (h : Handler) (name : String) :
    (registerStream h name).display_window = h.display_window := by
  unfold registerStream; split <;> rfl

@[simp] theorem registerStream_smoothing_factor (h : Handler) (name : String) :
    (registerStream h name).smoothing_factor = h.smoothing_factor := by
  unfold registerStream; split <;> rfl

@[simp] theorem registerStream_anomaly_threshold (h : Handler) (name : String) :
    (registerStream h name).anomaly_threshold = h.anomaly_threshold := by
  unfold registerStream; split <;> rfl

@[simp] theorem registerStream_total_points (h : Handler) (name : String) :
    (registerStream h name).total_points = h.total_points := by
  unfold registerStream; split <;> rfl

@[simp] theorem registerStream_anomalies (h : Handler) (name : String) :
    (registerStream h name).anomalies_detected = h.anomalies_detected := by
  unfold registerStream; split <;> rfl

@[simp] theorem registerStream_data_rates (h : Handler) (name : String) :
    (registerStream h name).data_rates = h.data_rates := by
  unfold registerStream; split <;> rfl

@[simp] theorem registerStream_last_update_time (h : Handler) (name : String) :
    (registerStream h name).last_update_time = h.last_update_time := by
  unfold registerStream; split <;> rfl

/-! ### Behaviour of registration -/

theorem lookup_eq_none_of_not_isSome {l : List (String × List Sample)} {name : String}
    (hns : ¬ (l.lookup name).isSome = true) : l.lookup name = none := by
  cases hOpt : l.lookup name with
  | none => rfl
  | some s => exact absurd (by simp [hOpt]) hns

theorem streamSamples_registerStream_self (h : Handler) (name : String) :
    streamSamples (registerStream h name) name = streamSamples h name := by
  unfold registerStream
  split
  · rfl
  · next hns =>
    have hnone : h.data_streams.lookup name = none :=
      lookup_eq_none_of_not_isSome hns
    simp [streamSamples, List.lookup_append, hnone]

theorem isSome_lookup_registerStream_self (h : Handler) (name : String) :
    ((registerStream h name).data_streams.lookup name).isSome := by
  unfold registerStream
  split
  · next hs => exact hs
  · next hns =>
    have hnone : h.data_streams.lookup name = none :=
      lookup_eq_none_of_not_isSome hns
    simp [List.lookup_append, hnone]

theorem lookup_registerStream_ne (h : Handler) (name n : String) (hn : n ≠ name) :
    (registerStream h name).data_streams.lookup n = h.data_streams.lookup n := by
  unfold registerStream
  split
  · rfl
  · simp [List.lookup_append, List.lookup_cons, beq_false_of_ne hn]

theorem nodup_keys_registerStream (h : Handler) (name : String)
    (hnd : (h.data_streams.map Prod.fst).Nodup) :
    ((registerStream h name).data_streams.map Prod.fst).Nodup := by
  unfold registerStream
  split
  · exact hnd
  · next hns =>
    have hnone : h.data_streams.lookup name = none :=
      lookup_eq_none_of_not_isSome hns
    have hnm := not_mem_keys_of_lookup_none h.data_streams name hnone
    simp [List.nodup_append, hnd, hnm]

theorem sumLen_registerStream (h : Handler) (name : String) :
    ((registerStream h name).data_streams.map (fun p => p.2.length)).sum =
      (h.data_streams.map (fun p => p.2.length)).sum := by
  unfold registerStream
  split
  · rfl
  · simp

/-! ### Behaviour of add_data_point -/

@[simp] theorem builtSample_raw_value (h : Handler) (name : String) (v t : ℚ) :
    (builtSample h name v t).raw_value = v := rfl

@[simp] theorem builtSample_timestamp (h : Handler) (name : String) (v t : ℚ) :
    (builtSample h name v t).timestamp = t := rfl

@[simp] theorem addDataPoint_buffer_size (h : Handler) (name : String) (v t now : ℚ) :
    (addDataPoint h name v t now).buffer_size = h.buffer_size := by
  simp [addDataPoint]

@[simp] theorem addDataPoint_display_window (h : Handler) (name : String) (v t now : ℚ) :
    (addDataPoint h name v t now).display_window = h.display_window := by
  simp [addDataPoint]

@[simp] theorem addDataPoint_smoothing_factor (h : Handler) (name : String) (v t now : ℚ) :
    (addDataPoint h name v t now).smoothing_factor = h.smoothing_factor := by
  simp [addDataPoint]

@[simp] theorem addDataPoint_anomaly_threshold (h : Handler) (name : String) (v t now : ℚ) :
    (addDataPoint h name v t now).anomaly_threshold = h.anomaly_threshold := by
  simp [addDataPoint]

theorem addDataPoint_total_points (h : Handler) (name : String) (v t now : ℚ) :
    (addDataPoint h name v t now).total_points = h.total_points + 1 := by
  simp [addDataPoint]

theorem addDataPoint_anomalies (h : Handler) (name : String) (v t now : ℚ) :
    (addDataPoint h name v t now).anomalies_detected =
      h.anomalies_detected +
        if detectAnomaly h.anomaly_threshold (streamSamples h name) v then 1 else 0 := by
  have hflag : (builtSample (registerStream h name) name v t).is_anomaly =
      detectAnomaly h.anomaly_threshold (streamSamples h name) v := by
    simp [builtSample, streamSamples_registerStream_self]
  simp only [addDataPoint, updatePM_anomalies, hflag]
  split <;> simp_all

theorem streamSamples_addDataPoint_self (h : Handler) (name : String) (v t now : ℚ) :
    streamSamples (addDataPoint h name v t now) name =
      dequeAppend h.buffer_size (streamSamples h name)
        (builtSample (registerStream h name) name v t) := by
  have hs := isSome_lookup_registerStream_self h name
  obtain ⟨s, hsome⟩ := Option.isSome_iff_exists.mp hs
  have hss : s = streamSamples h name := by
    rw [← streamSamples_registerStream_self h name]
    simp [streamSamples, hsome]
  simp only [addDataPoint, streamSamples, updatePM_data_streams]
  rw [lookup_updateStream_self, hsome, hss]
  simp [streamSamples]

theorem streamSamples_addDataPoint_ne (h : Handler) (name n : String) (v t now : ℚ)
    (hn : n ≠ name) :
    streamSamples (addDataPoint h name v t now) n = streamSamples h n := by
  simp only [addDataPoint, streamSamples, updatePM_data_streams]
  rw [lookup_updateStream_ne _ _ _ _ hn, lookup_registerStream_ne h name n hn]

theorem nodup_keys_addDataPoint (h : Handler) (name : String) (v t now : ℚ)
    (hnd : (h.data_streams.map Prod.fst).Nodup) :
    ((addDataPoint h name v t now).data_streams.map Prod.fst).Nodup := by
  simp only [addDataPoint, updatePM_data_streams]
  rw [map_fst_updateStream]
  exact nodup_keys_registerStream h name hnd

theorem registerStream_of_isSome (h : Handler) (name : String)
    (hs : (h.data_streams.lookup name).isSome = true) :
    registerStream h name = h := by
  unfold registerStream; rw [if_pos hs]

theorem lookup_reset (h : Handler) (n : String) :
    (reset h).data_streams.lookup n =
      (h.data_streams.lookup n).map (fun _ => ([] : List Sample)) :=
  lookup_map_value h.data_streams (fun _ => []) n

theorem map_fst_map_value (l : List (String × List Sample))
    (g : List Sample → List Sample) :
    (l.map (fun p => (p.1, g p.2))).map Prod.fst = l.map Prod.fst := by
  induction l with
  | nil => rfl
  | cons p l ih => simp [ih]

/-! ### The specification claims -/

/-- C2: `_apply_smoothing` returns the raw value when the stream has no prior
samples, and otherwise `α·value + (1-α)·previous_smoothed` where
`previous_smoothed` is the `smoothed_value` of the most recently appended
sample; ingesting the raw sequence [1, 3, 5] with α = 1/2 into a fresh stream
yields the smoothed sequence exactly [1, 2, 7/2]. -/
theorem C2_smoothing (alpha value : ℚ) (samples : List Sample) :
    (samples = [] → applySmoothing alpha samples value = value) ∧
    (∀ last_point, samples.getLast? = some last_point →
      applySmoothing alpha samples value =
        alpha * value + (1 - alpha) * last_point.smoothed_value) ∧
    (streamSamples
        (addAll (registerStream (mkHandler 800 150 (1/2) 3 0) "s") "s"
          [(1, 0, 1), (3, 0, 2), (5, 0, 3)]) "s").map Sample.smoothed_value
      = [1, 2, 7/2] := by
  refine ⟨?_, ?_, ?_⟩
  · rintro rfl; rfl
  · intro last_point hlast
    simp [applySmoothing, hlast]
  · norm_num [addAll, addDataPoint, registerStream, streamSamples, builtSample,
      detectAnomaly, applySmoothing, updateStream, updatePerformanceMetrics,
      dequeAppend, mkHandler, List.lookup]

theorem C2_smoothing_w :
    ([(⟨0, 1, 1, false, 1⟩ : Sample)].getLast? = some ⟨0, 1, 1, false, 1⟩) ∧
    applySmoothing (1/2) [⟨0, 1, 1, false, 1⟩] 3 =
      1/2 * 3 + (1 - 1/2) * (⟨0, 1, 1, false, 1⟩ : Sample).smoothed_value :=
  ⟨rfl, (C2_smoothing (1/2) 3 [⟨0, 1, 1, false, 1⟩]).2.1 ⟨0, 1, 1, false, 1⟩ rfl⟩

/-- C6: `reset` zeroes `total_points` and `anomalies_detected`, clears every
registered stream's sample sequence while keeping its registration, leaves the
four configuration fields unchanged, and a subsequent `add_data_point` on a
previously registered stream succeeds without creating a new registration. -/
theorem C6_reset_then_add (h : Handler) (name : String) (v t now : ℚ)
    (hreg : (h.data_streams.lookup name).isSome = true) :
    (reset h).total_points = 0 ∧
    (reset h).anomalies_detected = 0 ∧
    (∀ n s, h.data_streams.lookup n = some s →
      (reset h).data_streams.lookup n = some []) ∧
    (reset h).buffer_size = h.buffer_size ∧
    (reset h).display_window = h.display_window ∧
    (reset h).smoothing_factor = h.smoothing_factor ∧
    (reset h).anomaly_threshold = h.anomaly_threshold ∧
    (addDataPoint (reset h) name v t now).data_streams.map Prod.fst =
      h.data_streams.map Prod.fst ∧
    (addDataPoint (reset h) name v t now).total_points = 1 := by
  have hrs : ((reset h).data_streams.lookup name).isSome = true := by
    rw [lookup_reset]
    cases hOpt : h.data_streams.lookup name with
    | none => rw [hOpt] at hreg; simp at hreg
    | some s => simp
  refine ⟨rfl, rfl, ?_, rfl, rfl, rfl, rfl, ?_, ?_⟩
  · intro n s hsome
    rw [lookup_reset, hsome]
    rfl
  · simp only [addDataPoint, updatePM_data_streams]
    rw [registerStream_of_isSome _ _ hrs, map_fst_updateStream]
    exact map_fst_map_value h.data_streams (fun _ => [])
  · rw [addDataPoint_total_points]
    rfl

theorem C6_reset_then_add_w :
    ((({ mkHandler 5 3 (1/2) 3 0 with
          data_streams := [("s", [⟨0, 1, 1, false, 1⟩])] } : Handler).data_streams.lookup
        "s").isSome = true) ∧
    (reset ({ mkHandler 5 3 (1/2) 3 0 with
      data_streams := [("s", [⟨0, 1, 1, false, 1⟩])] } : Handler)).total_points = 0 ∧
    (addDataPoint (reset ({ mkHandler 5 3 (1/2) 3 0 with
        data_streams := [("s", [⟨0, 1, 1, false, 1⟩])] } : Handler))
      "s" 2 0 1).total_points = 1 :=
  ⟨by simp [mkHandler],
   (C6_reset_then_add _ "s" 2 0 1 (by simp [mkHandler])).1,
   (C6_reset_then_add _ "s" 2 0 1 (by simp [mkHandler])).2.2.2.2.2.2.2.2⟩

/-- C7: `get_performance_stats` reports `avg_data_rate` as the arithmetic mean
of the rate window and as 0 when that window is empty; on a freshly
constructed handler it returns all-zero statistics; and `buffer_usage` always
equals the sum of the current lengths of all registered streams. -/
theorem C7_perf_stats (h : Handler) (bs dw : ℕ) (sf th t0 : ℚ) :
    (h.data_rates = [] → (getPerformanceStats h).avg_data_rate = 0) ∧
    (h.data_rates ≠ [] →
      (getPerformanceStats h).avg_data_rate =
        h.data_rates.sum / h.data_rates.length) ∧
    getPerformanceStats (mkHandler bs dw sf th t0) =
      { total_points := 0, anomalies := 0, avg_data_rate := 0, buffer_usage := 0 } ∧
    (getPerformanceStats h).buffer_usage =
      (h.data_streams.map (fun p => p.2.length)).sum := by
  refine ⟨?_, ?_, rfl, rfl⟩
  · intro he
    simp [getPerformanceStats, he]
  · intro hne
    simp [getPerformanceStats, List.isEmpty_iff, hne]

theorem C7_perf_stats_w :
    (({ mkHandler 2 1 1 1 0 with data_rates := [2, 4] } : Handler).data_rates ≠ []) ∧
    (getPerformanceStats
        ({ mkHandler 2 1 1 1 0 with data_rates := [2, 4] } : Handler)).avg_data_rate =
      ({ mkHandler 2 1 1 1 0 with data_rates := [2, 4] } : Handler).data_rates.sum /
        ({ mkHandler 2 1 1 1 0 with data_rates := [2, 4] } : Handler).data_rates.length :=
  ⟨by simp [mkHandler],
   (C7_perf_stats _ 0 0 0 0 0).2.1 (by simp [mkHandler])⟩

/-- C10: `reset` leaves `data_rates` and `last_update_time` untouched, so
immediately after a reset the reported statistics can show a nonzero
`avg_data_rate` while `total_points` and `buffer_usage` are 0: concretely,
one insertion at unit time distance followed by a reset reports
`⟨0, 0, 1, 0⟩`. -/
theorem C10_reset_keeps_rates (h : Handler) :
    (reset h).data_rates = h.data_rates ∧
    (reset h).last_update_time = h.last_update_time ∧
    getPerformanceStats (reset (addDataPoint
        (registerStream (mkHandler 800 150 (1/5) (5/2) 0) "x_axis") "x_axis" 1 0 1)) =
      { total_points := 0, anomalies := 0, avg_data_rate := 1, buffer_usage := 0 } := by
  refine ⟨rfl, rfl, ?_⟩
  norm_num [getPerformanceStats, reset, addDataPoint, registerStream, builtSample,
    detectAnomaly, applySmoothing, updateStream, updatePerformanceMetrics,
    dequeAppend, mkHandler, streamSamples, List.lookup]

theorem getD_drop (vs : List ℚ) (k j : ℕ) :
    (vs.drop k).getD j 0 = vs.getD (k + j) 0 := by
  simp [List.getD_eq_getElem?_getD, List.getElem?_drop]

theorem take_three_eq (xs : List ℚ) (h : 3 ≤ xs.length) :
    xs.take 3 = [xs.getD 0 0, xs.getD 1 0, xs.getD 2 0] := by
  rcases xs with _ | ⟨a, _ | ⟨b, _ | ⟨c, rest⟩⟩⟩
  · simp at h
  · simp at h
  · simp only [List.length_cons, List.length_nil] at h; omega
  · rfl

theorem getD_cubicAt (vs : List ℚ) (i : ℕ) (h4 : ¬ vs.length < 4)
    (hi : i < vs.length) :
    (cubicInterpolation vs).getD i 0 = cubicAt vs i := by
  unfold cubicInterpolation
  rw [if_neg h4, List.getD_eq_getElem?_getD, List.getElem?_map,
    List.getElem?_range hi]
  rfl

theorem edgeValue_eq (vs : List ℚ) (i : ℕ) (h1 : 1 ≤ i) (h2 : i + 2 ≤ vs.length) :
    edgeValue vs i =
      (1/4 * vs.getD (i - 1) 0 + 1/2 * vs.getD i 0 + 1/4 * vs.getD (i + 1) 0) /
        (1/4 + 1/2 + 1/4) := by
  have hmin : min vs.length (i + 2) = i + 2 := min_eq_right h2
  have hlen : 3 ≤ (vs.drop (i - 1)).length := by
    rw [List.length_drop]; omega
  have h3 : i + 2 - (i - 1) = 3 := by omega
  have hd0 : (vs.drop (i - 1)).getD 0 0 = vs.getD (i - 1) 0 := by
    rw [getD_drop, Nat.add_zero]
  have hd1 : (vs.drop (i - 1)).getD 1 0 = vs.getD i 0 := by
    rw [getD_drop]; congr 1; omega
  have hd2 : (vs.drop (i - 1)).getD 2 0 = vs.getD (i + 1) 0 := by
    rw [getD_drop]; congr 1; omega
  simp only [edgeValue, hmin, h3, take_three_eq _ hlen, hd0, hd1, hd2]
  norm_num
  ring

theorem cubic_interior (vs : List ℚ) (i : ℕ) (hi2 : 2 ≤ i)
    (hi3 : i + 3 ≤ vs.length) :
    (cubicInterpolation vs).getD i 0 =
      1/2 * (2 * vs.getD (i - 1) 0 + (vs.getD i 0 - vs.getD (i - 2) 0) +
        (2 * vs.getD (i - 2) 0 - 5 * vs.getD (i - 1) 0 + 4 * vs.getD i 0 -
          vs.getD (i + 1) 0)) := by
  rw [getD_cubicAt vs i (by omega) (by omega)]
  simp only [cubicAt]
  rw [if_neg (by omega), if_pos (by omega)]
  ring

/-- C1: `_cubic_interpolation` preserves length; inputs of fewer than 4 values
are returned unchanged; the endpoints pass through unchanged; every interior
index `2 ≤ i ≤ len-3` is the stated 4-point formula over
`p0, p1, p2, p3 = input[i-2..i+1]` (so input [1,2,3,4,5] yields exactly 3 at
index 2); and indices 1 and `len-2` are the weighted average with weights
[1/4, 1/2, 1/4] divided by the sum of the weights used. -/
theorem C1_cubic (vs : List ℚ) :
    (cubicInterpolation vs).length = vs.length ∧
    (vs.length < 4 → cubicInterpolation vs = vs) ∧
    (1 ≤ vs.length →
      (cubicInterpolation vs).getD 0 0 = vs.getD 0 0 ∧
      (cubicInterpolation vs).getD (vs.length - 1) 0 = vs.getD (vs.length - 1) 0) ∧
    (∀ i, 2 ≤ i → i + 3 ≤ vs.length →
      (cubicInterpolation vs).getD i 0 =
        1/2 * (2 * vs.getD (i - 1) 0 + (vs.getD i 0 - vs.getD (i - 2) 0) +
          (2 * vs.getD (i - 2) 0 - 5 * vs.getD (i - 1) 0 + 4 * vs.getD i 0 -
            vs.getD (i + 1) 0))) ∧
    (4 ≤ vs.length →
      (cubicInterpolation vs).getD 1 0 =
        (1/4 * vs.getD 0 0 + 1/2 * vs.getD 1 0 + 1/4 * vs.getD 2 0) /
          (1/4 + 1/2 + 1/4) ∧
      (cubicInterpolation vs).getD (vs.length - 2) 0 =
        (1/4 * vs.getD (vs.length - 3) 0 + 1/2 * vs.getD (vs.length - 2) 0 +
          1/4 * vs.getD (vs.length - 1) 0) / (1/4 + 1/2 + 1/4)) ∧
    (cubicInterpolation [1, 2, 3, 4, 5]).getD 2 0 = 3 := by
  have hlen : (cubicInterpolation vs).length = vs.length := by
    by_cases h4 : vs.length < 4
    · rw [cubicInterpolation, if_pos h4]
    · rw [cubicInterpolation, if_neg h4]
      simp
  have hid : vs.length < 4 → cubicInterpolation vs = vs := by
    intro h4
    rw [cubicInterpolation, if_pos h4]
  have hends : 1 ≤ vs.length →
      (cubicInterpolation vs).getD 0 0 = vs.getD 0 0 ∧
      (cubicInterpolation vs).getD (vs.length - 1) 0 = vs.getD (vs.length - 1) 0 := by
    intro h1
    by_cases h4 : vs.length < 4
    · rw [hid h4]
      exact ⟨rfl, rfl⟩
    · constructor
      · rw [getD_cubicAt vs 0 h4 (by omega)]
        simp [cubicAt]
      · rw [getD_cubicAt vs (vs.length - 1) h4 (by omega)]
        simp [cubicAt]
  have hmid : ∀ i, 2 ≤ i → i + 3 ≤ vs.length →
      (cubicInterpolation vs).getD i 0 =
        1/2 * (2 * vs.getD (i - 1) 0 + (vs.getD i 0 - vs.getD (i - 2) 0) +
          (2 * vs.getD (i - 2) 0 - 5 * vs.getD (i - 1) 0 + 4 * vs.getD i 0 -
            vs.getD (i + 1) 0)) := fun i hi2 hi3 => cubic_interior vs i hi2 hi3
  have hedge : 4 ≤ vs.length →
      (cubicInterpolation vs).getD 1 0 =
        (1/4 * vs.getD 0 0 + 1/2 * vs.getD 1 0 + 1/4 * vs.getD 2 0) /
          (1/4 + 1/2 + 1/4) ∧
      (cubicInterpolation vs).getD (vs.length - 2) 0 =
        (1/4 * vs.getD (vs.length - 3) 0 + 1/2 * vs.getD (vs.length - 2) 0 +
          1/4 * vs.getD (vs.length - 1) 0) / (1/4 + 1/2 + 1/4) := by
    intro h4
    constructor
    · rw [getD_cubicAt vs 1 (by omega) (by omega)]
      simp only [cubicAt]
      rw [if_neg (by omega), if_neg (by omega)]
      have he := edgeValue_eq vs 1 (by omega) (by omega)
      simpa using he
    · rw [getD_cubicAt vs (vs.length - 2) (by omega) (by omega)]
      simp only [cubicAt]
      rw [if_neg (by omega), if_neg (by omega)]
      have he := edgeValue_eq vs (vs.length - 2) (by omega) (by omega)
      have e1 : vs.length - 2 - 1 = vs.length - 3 := by omega
      have e2 : vs.length - 2 + 1 = vs.length - 1 := by omega
      rw [e1, e2] at he
      exact he
  refine ⟨hlen, hid, hends, hmid, hedge, ?_⟩
  rw [cubic_interior [1, 2, 3, 4, 5] 2 (by norm_num) (by norm_num)]
  norm_num

theorem C1_cubic_w :
    (1 ≤ ([1, 2, 3, 4, 5] : List ℚ).length) ∧
    (cubicInterpolation [1, 2, 3, 4, 5]).getD 0 0 =
      ([1, 2, 3, 4, 5] : List ℚ).getD 0 0 :=
  ⟨by norm_num, ((C1_cubic [1, 2, 3, 4, 5]).2.2.1 (by norm_num)).1⟩

theorem detectAnomaly_eq_zscore (threshold value : ℚ) (samples : List Sample)
    (h20 : ¬ samples.length < 20) (hv : 0 < varianceVal (recentValues samples)) :
    (detectAnomaly threshold samples value = true ↔
      (threshold : ℝ) <
        |(value : ℝ) - (meanVal (recentValues samples) : ℝ)| /
          Real.sqrt ((varianceVal (recentValues samples) : ℝ))) := by
  have hVR : (0 : ℝ) < ((varianceVal (recentValues samples) : ℚ) : ℝ) := by
    exact_mod_cast hv
  have hsq : 0 < Real.sqrt ((varianceVal (recentValues samples) : ℚ) : ℝ) :=
    Real.sqrt_pos.mpr hVR
  have hlhs : detectAnomaly threshold samples value = true ↔
      (threshold < 0 ∨
        threshold ^ 2 * varianceVal (recentValues samples) <
          (value - meanVal (recentValues samples)) ^ 2) := by
    simp [detectAnomaly, h20, hv]
  rw [hlhs, lt_div_iff₀ hsq]
  constructor
  · rintro (ht | hlt)
    · have h1 : (threshold : ℝ) * Real.sqrt (varianceVal (recentValues samples) : ℝ) < 0 :=
        mul_neg_of_neg_of_pos (by exact_mod_cast ht) hsq
      exact lt_of_lt_of_le h1 (abs_nonneg _)
    · by_cases ht : (threshold : ℝ) < 0
      · have h1 : (threshold : ℝ) * Real.sqrt (varianceVal (recentValues samples) : ℝ) < 0 :=
          mul_neg_of_neg_of_pos ht hsq
        exact lt_of_lt_of_le h1 (abs_nonneg _)
      · push_neg at ht
        have h1 : ((threshold : ℝ) * Real.sqrt (varianceVal (recentValues samples) : ℝ)) ^ 2 <
            |(value : ℝ) - (meanVal (recentValues samples) : ℝ)| ^ 2 := by
          rw [mul_pow, Real.sq_sqrt hVR.le, sq_abs]
          exact_mod_cast hlt
        exact lt_of_pow_lt_pow_left₀ 2 (abs_nonneg _) h1
  · intro hlt
    by_cases ht : threshold < 0
    · exact Or.inl ht
    · right
      push_neg at ht
      have htR : (0 : ℝ) ≤ (threshold : ℝ) := by exact_mod_cast ht
      have h2 : ((threshold : ℝ) * Real.sqrt (varianceVal (recentValues samples) : ℝ)) ^ 2 <
          |(value : ℝ) - (meanVal (recentValues samples) : ℝ)| ^ 2 :=
        pow_lt_pow_left₀ hlt (mul_nonneg htR hsq.le) (by norm_num)
      rw [mul_pow, Real.sq_sqrt hVR.le, sq_abs] at h2
      exact_mod_cast h2

/-- C3: `_detect_anomaly` returns false with fewer than 20 prior samples
(regardless of the value), false when the population variance (hence the
standard deviation) of the most recent 20 prior raw values is zero, and
otherwise is true exactly when `|value - mean| / std_dev > anomaly_threshold`
with mean and standard deviation computed over the most recent 20 prior raw
values, the current value excluded. -/
theorem C3_detect_anomaly (threshold value : ℚ) (samples : List Sample) :
    (samples.length < 20 → detectAnomaly threshold samples value = false) ∧
    (varianceVal (recentValues samples) = 0 →
      detectAnomaly threshold samples value = false) ∧
    (¬ samples.length < 20 → 0 < varianceVal (recentValues samples) →
      (detectAnomaly threshold samples value = true ↔
        (threshold : ℝ) <
          |(value : ℝ) - (meanVal (recentValues samples) : ℝ)| /
            Real.sqrt ((varianceVal (recentValues samples) : ℝ)))) := by
  refine ⟨?_, ?_, ?_⟩
  · intro h
    simp [detectAnomaly, h]
  · intro h
    simp [detectAnomaly, h]
  · intro h20 hv
    exact detectAnomaly_eq_zscore threshold value samples h20 hv

theorem C3_detect_anomaly_w :
    (¬ ([⟨0, 1, 1, false, 1⟩, ⟨0, 1, 1, false, 1⟩, ⟨0, 1, 1, false, 1⟩,
        ⟨0, 1, 1, false, 1⟩, ⟨0, 1, 1, false, 1⟩, ⟨0, 1, 1, false, 1⟩,
        ⟨0, 1, 1, false, 1⟩, ⟨0, 1, 1, false, 1⟩, ⟨0, 1, 1, false, 1⟩,
        ⟨0, 1, 1, false, 1⟩, ⟨0, -1, -1, false, 1⟩, ⟨0, -1, -1, false, 1⟩,
        ⟨0, -1, -1, false, 1⟩, ⟨0, -1, -1, false, 1⟩, ⟨0, -1, -1, false, 1⟩,
        ⟨0, -1, -1, false, 1⟩, ⟨0, -1, -1, false, 1⟩, ⟨0, -1, -1, false, 1⟩,
        ⟨0, -1, -1, false, 1⟩, ⟨0, -1, -1, false, 1⟩] : List Sample).length < 20) ∧
    0 < varianceVal (recentValues
      [⟨0, 1, 1, false, 1⟩, ⟨0, 1, 1, false, 1⟩, ⟨0, 1, 1, false, 1⟩,
       ⟨0, 1, 1, false, 1⟩, ⟨0, 1, 1, false, 1⟩, ⟨0, 1, 1, false, 1⟩,
       ⟨0, 1, 1, false, 1⟩, ⟨0, 1, 1, false, 1⟩, ⟨0, 1, 1, false, 1⟩,
       ⟨0, 1, 1, false, 1⟩, ⟨0, -1, -1, false, 1⟩, ⟨0, -1, -1, false, 1⟩,
       ⟨0, -1, -1, false, 1⟩, ⟨0, -1, -1, false, 1⟩, ⟨0, -1, -1, false, 1⟩,
       ⟨0, -1, -1, false, 1⟩, ⟨0, -1, -1, false, 1⟩, ⟨0, -1, -1, false, 1⟩,
       ⟨0, -1, -1, false, 1⟩, ⟨0, -1, -1, false, 1⟩]) ∧
    detectAnomaly 3
      [⟨0, 1, 1, false, 1⟩, ⟨0, 1, 1, false, 1⟩, ⟨0, 1, 1, false, 1⟩,
       ⟨0, 1, 1, false, 1⟩, ⟨0, 1, 1, false, 1⟩, ⟨0, 1, 1, false, 1⟩,
       ⟨0, 1, 1, false, 1⟩, ⟨0, 1, 1, false, 1⟩, ⟨0, 1, 1, false, 1⟩,
       ⟨0, 1, 1, false, 1⟩, ⟨0, -1, -1, false, 1⟩, ⟨0, -1, -1, false, 1⟩,
       ⟨0, -1, -1, false, 1⟩, ⟨0, -1, -1, false, 1⟩, ⟨0, -1, -1, false, 1⟩,
       ⟨0, -1, -1, false, 1⟩, ⟨0, -1, -1, false, 1⟩, ⟨0, -1, -1, false, 1⟩,
       ⟨0, -1, -1, false, 1⟩, ⟨0, -1, -1, false, 1⟩] 10 = true := by
  have h20 : ¬ ([⟨0, 1, 1, false, 1⟩, ⟨0, 1, 1, false, 1⟩, ⟨0, 1, 1, false, 1⟩,
      ⟨0, 1, 1, false, 1⟩, ⟨0, 1, 1, false, 1⟩, ⟨0, 1, 1, false, 1⟩,
      ⟨0, 1, 1, false, 1⟩, ⟨0, 1, 1, false, 1⟩, ⟨0, 1, 1, false, 1⟩,
      ⟨0, 1, 1, false, 1⟩, ⟨0, -1, -1, false, 1⟩, ⟨0, -1, -1, false, 1⟩,
      ⟨0, -1, -1, false, 1⟩, ⟨0, -1, -1, false, 1⟩, ⟨0, -1, -1, false, 1⟩,
      ⟨0, -1, -1, false, 1⟩, ⟨0, -1, -1, false, 1⟩, ⟨0, -1, -1, false, 1⟩,
      ⟨0, -1, -1, false, 1⟩, ⟨0, -1, -1, false, 1⟩] : List Sample).length < 20 := by
    norm_num
  have hm : meanVal (recentValues
      [⟨0, 1, 1, false, 1⟩, ⟨0, 1, 1, false, 1⟩, ⟨0, 1, 1, false, 1⟩,
       ⟨0, 1, 1, false, 1⟩, ⟨0, 1, 1, false, 1⟩, ⟨0, 1, 1, false, 1⟩,
       ⟨0, 1, 1, false, 1⟩, ⟨0, 1, 1, false, 1⟩, ⟨0, 1, 1, false, 1⟩,
       ⟨0, 1, 1, false, 1⟩, ⟨0, -1, -1, false, 1⟩, ⟨0, -1, -1, false, 1⟩,
       ⟨0, -1, -1, false, 1⟩, ⟨0, -1, -1, false, 1⟩, ⟨0, -1, -1, false, 1⟩,
       ⟨0, -1, -1, false, 1⟩, ⟨0, -1, -1, false, 1⟩, ⟨0, -1, -1, false, 1⟩,
       ⟨0, -1, -1, false, 1⟩, ⟨0, -1, -1, false, 1⟩]) = 0 := by
    norm_num [meanVal, recentValues]
  have hv : varianceVal (recentValues
      [⟨0, 1, 1, false, 1⟩, ⟨0, 1, 1, false, 1⟩, ⟨0, 1, 1, false, 1⟩,
       ⟨0, 1, 1, false, 1⟩, ⟨0, 1, 1, false, 1⟩, ⟨0, 1, 1, false, 1⟩,
       ⟨0, 1, 1, false, 1⟩, ⟨0, 1, 1, false, 1⟩, ⟨0, 1, 1, false, 1⟩,
       ⟨0, 1, 1, false, 1⟩, ⟨0, -1, -1, false, 1⟩, ⟨0, -1, -1, false, 1⟩,
       ⟨0, -1, -1, false, 1⟩, ⟨0, -1, -1, false, 1⟩, ⟨0, -1, -1, false, 1⟩,
       ⟨0, -1, -1, false, 1⟩, ⟨0, -1, -1, false, 1⟩, ⟨0, -1, -1, false, 1⟩,
       ⟨0, -1, -1, false, 1⟩, ⟨0, -1, -1, false, 1⟩]) = 1 := by
    norm_num [varianceVal, meanVal, recentValues]
  refine ⟨h20, by rw [hv]; norm_num, ?_⟩
  rw [(C3_detect_anomaly 3 10 _).2.2 h20 (by rw [hv]; norm_num)]
  rw [hm, hv]
  push_cast
  rw [Real.sqrt_one]
  norm_num

theorem map_streamSamples_addAll (h : Handler) (name : String)
    (pts : List (ℚ × ℚ × ℚ)) (f : Sample → ℚ) (pick : ℚ × ℚ × ℚ → ℚ)
    (hf : ∀ (h' : Handler) (p : ℚ × ℚ × ℚ),
      f (builtSample h' name p.1 p.2.1) = pick p) :
    (streamSamples (addAll h name pts) name).map f =
      (pts.map pick).foldl (dequeAppend h.buffer_size)
        ((streamSamples h name).map f) := by
  induction pts generalizing h with
  | nil => simp [addAll]
  | cons p pts ih =>
    have hstep : addAll h name (p :: pts) =
        addAll (addDataPoint h name p.1 p.2.1 p.2.2) name pts := rfl
    rw [hstep, ih _, streamSamples_addDataPoint_self, map_dequeAppend, hf _ p,
      addDataPoint_buffer_size]
    simp [List.foldl_cons]

theorem streamSamples_addAll_fresh (bs dw : ℕ) (sf th t0 : ℚ) (name : String)
    (pts : List (ℚ × ℚ × ℚ)) (f : Sample → ℚ) (pick : ℚ × ℚ × ℚ → ℚ)
    (hf : ∀ (h' : Handler) (p : ℚ × ℚ × ℚ),
      f (builtSample h' name p.1 p.2.1) = pick p) :
    (streamSamples (addAll (registerStream (mkHandler bs dw sf th t0) name) name pts)
        name).map f = (pts.map pick).drop (pts.length - bs) := by
  rw [map_streamSamples_addAll _ _ _ _ _ hf]
  have hinit : streamSamples (registerStream (mkHandler bs dw sf th t0) name) name = [] := by
    rw [streamSamples_registerStream_self]; rfl
  rw [hinit]
  simp only [List.map_nil, registerStream_buffer_size]
  rw [foldl_dequeAppend _ _ _ (by simp [mkHandler])]
  simp [mkHandler, List.length_map]

theorem length_streamSamples_addAll_fresh (bs dw : ℕ) (sf th t0 : ℚ) (name : String)
    (pts : List (ℚ × ℚ × ℚ)) :
    (streamSamples (addAll (registerStream (mkHandler bs dw sf th t0) name) name pts)
        name).length = min pts.length bs := by
  have h := streamSamples_addAll_fresh bs dw sf th t0 name pts Sample.raw_value
    (fun p => p.1) (fun h' p => rfl)
  have hl := congrArg List.length h
  rw [List.length_map] at hl
  rw [hl]
  simp only [List.length_drop, List.length_map]
  omega

/-- C4: for a freshly registered stream of capacity `bs`, after inserting
`bs + k` samples through `add_data_point` the buffer holds exactly `bs`
samples, namely the `(k+1)`-th through `(k+bs)`-th inserted ones in insertion
order (raw values and timestamps are the inserted sequences with the oldest
`k` dropped), and after every prefix of the insertions the buffer length never
exceeds the capacity. -/
theorem C4_ring_buffer (bs dw : ℕ) (sf th t0 : ℚ) (name : String)
    (pts : List (ℚ × ℚ × ℚ)) (k : ℕ) (hlen : pts.length = bs + k) :
    (streamSamples (addAll (registerStream (mkHandler bs dw sf th t0) name) name pts)
        name).length = bs ∧
    (streamSamples (addAll (registerStream (mkHandler bs dw sf th t0) name) name pts)
        name).map Sample.raw_value = (pts.map (fun p => p.1)).drop k ∧
    (streamSamples (addAll (registerStream (mkHandler bs dw sf th t0) name) name pts)
        name).map Sample.timestamp = (pts.map (fun p => p.2.1)).drop k ∧
    (∀ m, (streamSamples (addAll (registerStream (mkHandler bs dw sf th t0) name) name
        (pts.take m)) name).length ≤ bs) := by
  refine ⟨?_, ?_, ?_, ?_⟩
  · rw [length_streamSamples_addAll_fresh, hlen]
    omega
  · rw [streamSamples_addAll_fresh bs dw sf th t0 name pts Sample.raw_value
      (fun p => p.1) (fun h' p => rfl), hlen]
    congr 1
    omega
  · rw [streamSamples_addAll_fresh bs dw sf th t0 name pts Sample.timestamp
      (fun p => p.2.1) (fun h' p => rfl), hlen]
    congr 1
    omega
  · intro m
    rw [length_streamSamples_addAll_fresh]
    omega

theorem C4_ring_buffer_w :
    (([((10:ℚ), (0:ℚ), (1:ℚ)), (20, 0, 2), (30, 0, 3)] : List (ℚ × ℚ × ℚ)).length
      = 2 + 1) ∧
    (streamSamples (addAll (registerStream (mkHandler 2 100 (1/2) 3 0) "s") "s"
        [(10, 0, 1), (20, 0, 2), (30, 0, 3)]) "s").length = 2 ∧
    (streamSamples (addAll (registerStream (mkHandler 2 100 (1/2) 3 0) "s") "s"
        [(10, 0, 1), (20, 0, 2), (30, 0, 3)]) "s").map Sample.raw_value = [20, 30] := by
  have hc := C4_ring_buffer 2 100 (1/2) 3 0 "s"
    [(10, 0, 1), (20, 0, 2), (30, 0, 3)] 1 rfl
  refine ⟨rfl, hc.1, ?_⟩
  rw [hc.2.1]
  norm_num

theorem length_cubicInterpolation (vs : List ℚ) :
    (cubicInterpolation vs).length = vs.length := by
  by_cases h4 : vs.length < 4
  · rw [cubicInterpolation, if_pos h4]
  · rw [cubicInterpolation, if_neg h4]
    simp

/-- C5 counterexample: with `display_window = 0` and one stored sample, the
claim predicts the returned timestamp column equals that of the last 0 samples
(the empty sequence), but `get_display_data` returns the whole buffer because
the Python slice `xs[-0:]` is `xs[0:]`. -/
theorem C5_display_data_cex :
    ((addDataPoint (mkHandler 5 0 (1/2) 3 0) "s" 7 0 1).display_window = 0) ∧
    (streamSamples (addDataPoint (mkHandler 5 0 (1/2) 3 0) "s" 7 0 1) "s").length = 1 ∧
    (getDisplayData (addDataPoint (mkHandler 5 0 (1/2) 3 0) "s" 7 0 1) "s").1 ≠
      ((streamSamples (addDataPoint (mkHandler 5 0 (1/2) 3 0) "s" 7 0 1) "s").drop
        ((streamSamples (addDataPoint (mkHandler 5 0 (1/2) 3 0) "s" 7 0 1) "s").length -
          (addDataPoint (mkHandler 5 0 (1/2) 3 0) "s" 7 0 1).display_window)).map
        Sample.timestamp := by
  norm_num [getDisplayData, addDataPoint, registerStream, builtSample, detectAnomaly,
    applySmoothing, updateStream, updatePerformanceMetrics, dequeAppend, mkHandler,
    streamSamples, pySliceLast, List.lookup]

/-- C5 (amended): provided `display_window ≥ 1`, `get_display_data` returns
three empty sequences for an unknown stream or an empty buffer (raising no
error), and otherwise the timestamps, raw values, and interpolated smoothed
values of the last `display_window` samples (or fewer when the buffer is not
yet filled); the three returned sequences always have equal lengths.  With
`display_window = 0` the code instead returns the whole buffer (Python
negative-slice degeneracy), as the counterexample shows. -/
theorem C5_display_data (h : Handler) (name : String) (hdw : 1 ≤ h.display_window) :
    (h.data_streams.lookup name = none → getDisplayData h name = ([], [], [])) ∧
    (∀ s, h.data_streams.lookup name = some s → s = [] →
      getDisplayData h name = ([], [], [])) ∧
    (∀ s, h.data_streams.lookup name = some s → s ≠ [] →
      getDisplayData h name =
        ((s.drop (s.length - h.display_window)).map Sample.timestamp,
         (s.drop (s.length - h.display_window)).map Sample.raw_value,
         cubicInterpolation
           ((s.drop (s.length - h.display_window)).map Sample.smoothed_value))) ∧
    ((getDisplayData h name).1.length = (getDisplayData h name).2.1.length ∧
     (getDisplayData h name).2.1.length = (getDisplayData h name).2.2.length) := by
  have harm1 : h.data_streams.lookup name = none →
      getDisplayData h name = ([], [], []) := by
    intro hnone
    simp [getDisplayData, hnone]
  have harm2 : ∀ s, h.data_streams.lookup name = some s → s = [] →
      getDisplayData h name = ([], [], []) := by
    intro s hsome hse
    subst hse
    simp [getDisplayData, hsome, pySliceLast]
  have harm3 : ∀ s, h.data_streams.lookup name = some s → s ≠ [] →
      getDisplayData h name =
        ((s.drop (s.length - h.display_window)).map Sample.timestamp,
         (s.drop (s.length - h.display_window)).map Sample.raw_value,
         cubicInterpolation
           ((s.drop (s.length - h.display_window)).map Sample.smoothed_value)) := by
    intro s hsome hne
    have hw0 : ¬ h.display_window = 0 := by omega
    have hs1 : 1 ≤ s.length := by
      cases s with
      | nil => exact absurd rfl hne
      | cons a l => simp
    have hnonempty : ¬ (s.drop (s.length - h.display_window)).isEmpty = true := by
      rw [List.isEmpty_iff, List.drop_eq_nil_iff]
      omega
    simp only [getDisplayData, hsome]
    rw [show pySliceLast h.display_window s = s.drop (s.length - h.display_window) from by
      simp [pySliceLast, hw0]]
    rw [if_neg hnonempty]
    by_cases h4 :
      4 ≤ ((s.drop (s.length - h.display_window)).map Sample.smoothed_value).length
    · rw [if_pos h4]
    · rw [if_neg h4]
      have hid : cubicInterpolation
          ((s.drop (s.length - h.display_window)).map Sample.smoothed_value) =
          (s.drop (s.length - h.display_window)).map Sample.smoothed_value := by
        rw [cubicInterpolation, if_pos (by omega)]
      rw [hid]
  refine ⟨harm1, harm2, harm3, ?_⟩
  cases hOpt : h.data_streams.lookup name with
  | none =>
    rw [harm1 hOpt]
    exact ⟨rfl, rfl⟩
  | some s =>
    by_cases hse : s = []
    · rw [harm2 s hOpt hse]
      exact ⟨rfl, rfl⟩
    · rw [harm3 s hOpt hse]
      simp [length_cubicInterpolation]

theorem C5_display_data_w :
    (1 ≤ ({ mkHandler 5 1 (1/2) 3 0 with
        data_streams := [("s", [⟨0, 7, 7, false, 1⟩])] } : Handler).display_window) ∧
    getDisplayData ({ mkHandler 5 1 (1/2) 3 0 with
        data_streams := [("s", [⟨0, 7, 7, false, 1⟩])] } : Handler) "s"
      = ([0], [7], [7]) := by
  refine ⟨by norm_num [mkHandler], ?_⟩
  have hc := (C5_display_data ({ mkHandler 5 1 (1/2) 3 0 with
      data_streams := [("s", [⟨0, 7, 7, false, 1⟩])] } : Handler) "s"
      (by norm_num [mkHandler])).2.2.1 [⟨0, 7, 7, false, 1⟩] (by simp [mkHandler]) (by simp)
  rw [hc]
  norm_num [cubicInterpolation, mkHandler]

/-- C9: starting from a fresh handler, any sequence of `register_stream` and
`add_data_point` calls keeps `anomalies_detected ≤ total_points`; both
counters are monotone under each operation; and `add_data_point` increments
`total_points` by exactly 1 and `anomalies_detected` by 1 exactly when the
value is flagged anomalous against the pre-append buffer. -/
theorem C9_counters (bs dw : ℕ) (sf th t0 : ℚ) (ops : List Op) :
    (runOps (mkHandler bs dw sf th t0) ops).anomalies_detected ≤
      (runOps (mkHandler bs dw sf th t0) ops).total_points ∧
    (∀ (h : Handler) (op : Op),
      h.total_points ≤ (applyOp h op).total_points ∧
      h.anomalies_detected ≤ (applyOp h op).anomalies_detected) ∧
    (∀ (h : Handler) (name : String) (v t now : ℚ),
      (addDataPoint h name v t now).total_points = h.total_points + 1 ∧
      (addDataPoint h name v t now).anomalies_detected =
        h.anomalies_detected +
          if detectAnomaly h.anomaly_threshold (streamSamples h name) v
          then 1 else 0) := by
  have hmono : ∀ (h : Handler) (op : Op),
      h.total_points ≤ (applyOp h op).total_points ∧
      h.anomalies_detected ≤ (applyOp h op).anomalies_detected := by
    intro h op
    cases op with
    | reg name => simp [applyOp]
    | add name v t now =>
      simp only [applyOp, addDataPoint_total_points, addDataPoint_anomalies]
      constructor
      · omega
      · split <;> omega
  have hinv : ∀ (ops : List Op) (h : Handler),
      h.anomalies_detected ≤ h.total_points →
      (runOps h ops).anomalies_detected ≤ (runOps h ops).total_points := by
    intro ops
    induction ops with
    | nil =>
      intro h hh
      simpa [runOps] using hh
    | cons op ops ih =>
      intro h hh
      have hstep : runOps h (op :: ops) = runOps (applyOp h op) ops := rfl
      rw [hstep]
      apply ih
      cases op with
      | reg name => simpa [applyOp] using hh
      | add name v t now =>
        simp only [applyOp, addDataPoint_total_points, addDataPoint_anomalies]
        split <;> omega
  refine ⟨hinv ops (mkHandler bs dw sf th t0) (by simp [mkHandler]), hmono, ?_⟩
  intro h name v t now
  exact ⟨addDataPoint_total_points h name v t now,
    addDataPoint_anomalies h name v t now⟩

theorem countName_cons (name : String) (o : String × ℚ × ℚ × ℚ)
    (ops : List (String × ℚ × ℚ × ℚ)) :
    countName name (o :: ops) =
      countName name ops + if o.1 = name then 1 else 0 := by
  by_cases h : o.1 = name <;> simp [countName, List.filter_cons, h]

theorem countName_take_le (name : String) (ops : List (String × ℚ × ℚ × ℚ))
    (m : ℕ) : countName name (ops.take m) ≤ countName name ops :=
  List.Sublist.length_le (List.Sublist.filter _ (List.take_sublist m ops))

theorem sumLen_updateStream (l : List (String × List Sample)) (name : String)
    (f : List Sample → List Sample) (s : List Sample)
    (hnd : (l.map Prod.fst).Nodup) (hlk : l.lookup name = some s) :
    ((updateStream l name f).map (fun p => p.2.length)).sum + s.length =
      (l.map (fun p => p.2.length)).sum + (f s).length := by
  induction l with
  | nil => simp at hlk
  | cons p l ih =>
    obtain ⟨k, sv⟩ := p
    simp only [List.map_cons, List.nodup_cons] at hnd
    by_cases hk : k = name
    · subst hk
      rw [List.lookup_cons_self] at hlk
      have hsv : sv = s := Option.some.inj hlk
      subst hsv
      rw [updateStream_cons, if_pos rfl, updateStream_of_not_mem l k f hnd.1]
      simp only [List.map_cons, List.sum_cons]
      omega
    · have hbe : (name == k) = false := beq_false_of_ne (Ne.symm hk)
      simp only [List.lookup_cons, hbe] at hlk
      rw [updateStream_cons, if_neg hk]
      simp only [List.map_cons, List.sum_cons]
      have := ih hnd.2 hlk
      omega

theorem bufferUsage_addDataPoint (h : Handler) (name : String) (v t now : ℚ)
    (hnd : (h.data_streams.map Prod.fst).Nodup)
    (hlt : (streamSamples h name).length < h.buffer_size) :
    ((addDataPoint h name v t now).data_streams.map (fun p => p.2.length)).sum =
      (h.data_streams.map (fun p => p.2.length)).sum + 1 := by
  have hs := isSome_lookup_registerStream_self h name
  obtain ⟨s, hsome⟩ := Option.isSome_iff_exists.mp hs
  have hss : s = streamSamples h name := by
    rw [← streamSamples_registerStream_self h name]
    simp [streamSamples, hsome]
  have hndr := nodup_keys_registerStream h name hnd
  have hsum := sumLen_updateStream (registerStream h name).data_streams name
    (fun sb => dequeAppend (registerStream h name).buffer_size sb
      (builtSample (registerStream h name) name v t)) s hndr hsome
  have hflen : (dequeAppend (registerStream h name).buffer_size s
      (builtSample (registerStream h name) name v t)).length = s.length + 1 := by
    rw [length_dequeAppend, registerStream_buffer_size, hss]
    omega
  have hreg := sumLen_registerStream h name
  simp only [addDataPoint, updatePM_data_streams]
  simp only [hflen] at hsum
  omega

theorem length_streamSamples_addDataPoint_self (h : Handler) (name : String)
    (v t now : ℚ) (hlt : (streamSamples h name).length < h.buffer_size) :
    (streamSamples (addDataPoint h name v t now) name).length =
      (streamSamples h name).length + 1 := by
  rw [streamSamples_addDataPoint_self, length_dequeAppend]
  omega

theorem bufferUsage_runAdds (ops : List (String × ℚ × ℚ × ℚ)) : ∀ (h : Handler),
    (h.data_streams.map Prod.fst).Nodup →
    (∀ name, (streamSamples h name).length + countName name ops ≤ h.buffer_size) →
    ((runAdds h ops).data_streams.map (fun p => p.2.length)).sum =
      (h.data_streams.map (fun p => p.2.length)).sum + ops.length := by
  induction ops with
  | nil =>
    intro h _ _
    simp [runAdds]
  | cons o ops ih =>
    intro h hnd hcnt
    have hlt : (streamSamples h o.1).length < h.buffer_size := by
      have hc := hcnt o.1
      rw [countName_cons] at hc
      simp at hc
      omega
    have hcnt' : ∀ name,
        (streamSamples (addDataPoint h o.1 o.2.1 o.2.2.1 o.2.2.2) name).length +
          countName name ops ≤
          (addDataPoint h o.1 o.2.1 o.2.2.1 o.2.2.2).buffer_size := by
      intro name
      rw [addDataPoint_buffer_size]
      by_cases hn : name = o.1
      · subst hn
        rw [length_streamSamples_addDataPoint_self h o.1 _ _ _ hlt]
        have hc := hcnt o.1
        rw [countName_cons] at hc
        simp at hc
        omega
      · rw [streamSamples_addDataPoint_ne h o.1 name _ _ _ hn]
        have hc := hcnt name
        rw [countName_cons] at hc
        rw [if_neg (fun e => hn e.symm)] at hc
        omega
    have hstep : runAdds h (o :: ops) =
        runAdds (addDataPoint h o.1 o.2.1 o.2.2.1 o.2.2.2) ops := rfl
    rw [hstep, ih _ (nodup_keys_addDataPoint h o.1 _ _ _ hnd) hcnt']
    rw [bufferUsage_addDataPoint h o.1 _ _ _ hnd hlt]
    simp only [List.length_cons]
    omega

theorem total_points_runAdds (ops : List (String × ℚ × ℚ × ℚ)) : ∀ (h : Handler),
    (runAdds h ops).total_points = h.total_points + ops.length := by
  induction ops with
  | nil =>
    intro h
    simp [runAdds]
  | cons o ops ih =>
    intro h
    have hstep : runAdds h (o :: ops) =
        runAdds (addDataPoint h o.1 o.2.1 o.2.2.1 o.2.2.2) ops := rfl
    rw [hstep, ih, addDataPoint_total_points]
    simp only [List.length_cons]
    omega

/-- C8 counterexample: from a fresh handler with `buffer_size = 1`, two
insertions into the same stream leave `total_points = 2` but
`buffer_usage = 1` — the claimed equality fails once a buffer evicts. -/
theorem C8_total_eq_usage_cex :
    (getPerformanceStats (runAdds (mkHandler 1 100 (1/5) (5/2) 0)
        [("s", 1, 0, 1), ("s", 2, 0, 2)])).total_points = 2 ∧
    (getPerformanceStats (runAdds (mkHandler 1 100 (1/5) (5/2) 0)
        [("s", 1, 0, 1), ("s", 2, 0, 2)])).buffer_usage = 1 := by
  constructor <;>
    norm_num [runAdds, getPerformanceStats, addDataPoint, registerStream, builtSample,
      detectAnomaly, applySmoothing, updateStream, updatePerformanceMetrics,
      dequeAppend, mkHandler, streamSamples, List.lookup]

/-- C8 (amended): starting from a fresh handler, for any sequence of
`add_data_point` calls in which no stream receives more than `buffer_size`
insertions (so no buffer has yet evicted), every reader call — after any
prefix of the sequence, reads being pure — observes
`total_points = buffer_usage`.  Once any stream exceeds its capacity the
equality fails, as the counterexample shows. -/
theorem C8_total_eq_usage (bs dw : ℕ) (sf th t0 : ℚ)
    (ops : List (String × ℚ × ℚ × ℚ))
    (hcap : ∀ name, countName name ops ≤ bs) (m : ℕ) :
    (getPerformanceStats (runAdds (mkHandler bs dw sf th t0) (ops.take m))).total_points =
      (getPerformanceStats (runAdds (mkHandler bs dw sf th t0) (ops.take m))).buffer_usage := by
  have hcnt : ∀ name, (streamSamples (mkHandler bs dw sf th t0) name).length +
      countName name (ops.take m) ≤ (mkHandler bs dw sf th t0).buffer_size := by
    intro name
    have h1 := countName_take_le name ops m
    have h2 := hcap name
    simp only [streamSamples, mkHandler, List.lookup_nil, Option.getD_none,
      List.length_nil]
    omega
  have he1 := bufferUsage_runAdds (ops.take m) (mkHandler bs dw sf th t0)
    (by simp [mkHandler]) hcnt
  have he2 := total_points_runAdds (ops.take m) (mkHandler bs dw sf th t0)
  simp only [getPerformanceStats]
  rw [he1, he2]
  simp [mkHandler]

theorem C8_total_eq_usage_w :
    (∀ name, countName name [("s", (1:ℚ), (0:ℚ), (1:ℚ))] ≤ 1) ∧
    (getPerformanceStats (runAdds (mkHandler 1 100 (1/5) (5/2) 0)
        ([("s", (1:ℚ), (0:ℚ), (1:ℚ))].take 1))).total_points =
      (getPerformanceStats (runAdds (mkHandler 1 100 (1/5) (5/2) 0)
        ([("s", (1:ℚ), (0:ℚ), (1:ℚ))].take 1))).buffer_usage := by
  have hcap : ∀ name, countName name [("s", (1:ℚ), (0:ℚ), (1:ℚ))] ≤ 1 := by
    intro name
    by_cases h : ("s" : String) = name <;>
      simp [countName, List.filter_cons, h]
  exact ⟨hcap, C8_total_eq_usage 1 100 (1/5) (5/2) 0 _ hcap 1⟩

end SmoothStream
